import Mathlib

/-!
Verification of `CIRAIG/IE_ML_mapping` (`src/ML_mapping.py`).

The repository is a single Python class `Mapping` that
1. dispatches a classification identifier to one of 24 static reference
   lists and encodes them with an external sentence-embedding model
   (`Mapping.__init__` together with the `match_to_*` methods),
2. computes a cosine-similarity matrix between input embeddings and
   reference embeddings and sorts each row descending
   (`Mapping.calculate_scores`, which delegates to
   `sentence_transformers.util.pytorch_cos_sim` and `torch.Tensor.sort`),
3. reshapes the sorted matrix into a report table, one row per
   (input, rank), in two shapes: plain-label and code-bearing
   (`Mapping.format_results`).

The embedding model itself and the numeric value of cosine similarity are
external collaborators (the spec declares reimplementing them a non-goal),
so the scalar similarity kernel is a parameter `sim` throughout; the
*shape* behaviour of the library calls (tensor construction, the matrix
multiply inside `cos_sim`, tensor and list indexing) is modelled
concretely, because the error behaviour of the repository depends on it.
Scores are modelled as rationals.
-/

/-- An embedding vector: one fixed-length numeric vector per string. -/
abbrev Vec := List ℚ

/-- Failure channel of the embedded Python code.
`valueError`, `runtimeError`, `indexError` and `keyError` model the
built-in Python / torch exceptions the code can actually raise (ragged
tensor construction, matrix-multiply shape mismatch, out-of-range
indexing, and the `set_index` on a zero-row accumulation at the end of
`format_results`).  The remaining constructors are the spec's error
vocabulary (`UnknownClassification`, `DimensionMismatch`, `EmptyInput`,
`InsufficientReferenceEntries`), included so that the spec's claims are
statable; the embedded code never produces them. -/
inductive PyError
  | valueError
  | runtimeError
  | indexError
  | keyError
  | unknownClassification
  | dimensionMismatch
  | emptyInput
  | insufficientReferenceEntries
  deriving DecidableEq

/-- Shape `(rows, cols)` of `torch.tensor(a)` as it stands after the
`unsqueeze(0)` at the top of `sentence_transformers.util.cos_sim`:
an empty list gives a 1-dimensional size-0 tensor which is unsqueezed to
shape `(1, 0)`; a ragged nested list raises `ValueError`; otherwise the
shape is `(len a, d)` for the common row length `d`. -/
def embShape (a : List Vec) : Except PyError (Nat × Nat) :=
  match a with
  | [] => .ok (1, 0)
  | u :: rest =>
    if _h : ∀ v ∈ rest, v.length = u.length then .ok (rest.length + 1, u.length)
    else .error .valueError

/-- Embedding of `sentence_transformers.util.pytorch_cos_sim a b`
(as called at `src/ML_mapping.py:353`): both arguments become 2-d tensors
(`embShape`), and `torch.mm a_norm (transpose b_norm)` requires the two
widths to agree, raising `RuntimeError` otherwise.  The scalar value of
cosine similarity (normalised dot product, irrational in general) is the
external kernel `sim`; in the degenerate branches where one side is the
empty list, the `(1, 0)`-shaped tensor makes the matrix product a matrix
of zeros of the corresponding shape. -/
def pytorch_cos_sim (sim : Vec → Vec → ℚ) (a b : List Vec) :
    Except PyError (List (List ℚ)) := do
  let sa ← embShape a
  let sb ← embShape b
  if sa.2 = sb.2 then
    match a, b with
    | [], [] => .ok [[0]]
    | [], v :: vs => .ok [List.replicate (v :: vs).length 0]
    | u :: us, [] => .ok ((u :: us).map fun _ => [0])
    | u :: us, v :: vs => .ok ((u :: us).map fun x => (v :: vs).map fun y => sim x y)
  else .error .runtimeError

/-- The comparison `torch.Tensor.sort dim:=1 descending:=true` sorts by:
higher score first.  On `(index, score)` pairs it compares scores only. -/
def scoreGE (p q : Nat × ℚ) : Prop := q.2 ≤ p.2

instance : DecidableRel scoreGE := fun p q => inferInstanceAs (Decidable (q.2 ≤ p.2))

instance : IsTotal (Nat × ℚ) scoreGE := ⟨fun p q => le_total q.2 p.2⟩

instance : IsTrans (Nat × ℚ) scoreGE := ⟨fun _ _ _ h h' => le_trans h' h⟩

/-- One row of `scores.sort(dim=1, descending=True)`: the row's entries
paired with their original column indices, sorted by descending score.
`torch.sort` with the default `stable=False` leaves the relative order of
equal elements unspecified; this model realises it with a stable insertion
sort (one admissible behaviour — equal scores come out in ascending
original-index order).  Every theorem below that depends on the tie order
says so explicitly. -/
def sortRow (row : List ℚ) : List (Nat × ℚ) :=
  List.insertionSort scoreGE row.enum

/-- Embedding of `Mapping.calculate_scores` (`src/ML_mapping.py:347-354`)
as a function of the two embedding matrices: compute the cosine-similarity
matrix, sort every row descending, and return the pair
`(sorted_scores, indices)` exactly as `Tensor.sort` does. -/
def calculate_scores (sim : Vec → Vec → ℚ) (a b : List Vec) :
    Except PyError (List (List ℚ) × List (List Nat)) := do
  let scores ← pytorch_cos_sim sim a b
  let sorted := scores.map sortRow
  .ok (sorted.map (fun r => r.map Prod.snd), sorted.map (fun r => r.map Prod.fst))

/-- Indexing `xs[i]` on a Python list or a torch tensor row: raises
`IndexError` when `i` is out of range (the sort indices are non-negative,
so the negative-index case cannot arise). -/
def getAt {α : Type} (xs : List α) (i : Nat) : Except PyError α :=
  match xs[i]? with
  | some x => .ok x
  | none => .error .indexError

/-- One row of the final report.  The source builds rows labelled
`product, order, sector, similarity` in the plain-label branch and
`product, order, code sector, sector, similarity` in the code-bearing
branch (`src/ML_mapping.py:417-423` and `434-441`); the optional `code`
field covers the `code sector` column, `none` in the plain branch. -/
structure Row where
  product : String
  order : Nat
  code : Option String
  sector : String
  similarity : ℚ
  deriving DecidableEq

/-- Sequential loop with Python exception semantics: apply `f` to each
element in order, stopping at the first failure (models the nested `for`
loops of `format_results`, where an exception aborts the whole method). -/
def forEachE {α β : Type} (f : α → Except PyError β) : List α → Except PyError (List β)
  | [] => .ok []
  | a :: l => do
    let b ← f a
    let bs ← forEachE f l
    .ok (b :: bs)

/-- Embedding of the plain-label branch of `Mapping.format_results`
(`src/ML_mapping.py:414-425`): for each input `i` (in supplied order) and
each `j` in `range number_of_guesses`, emit the row
`(product, j+1, reference_list[indices[i][j]], sorted_scores[i][j])`,
with each lookup raising `IndexError` when out of range, in the source's
evaluation order.  The method ends with
`self.mapping.T.set_index(['product', 'order'])` (`src/ML_mapping.py:424`):
when the nested loops never ran (empty input list, or
`number_of_guesses = 0`) the accumulated frame is still the initial
`pd.DataFrame(None, ['order', 'sector', 'similarity'])`, whose transpose
has no `product` column, so `set_index` raises `KeyError`; with at least
one accumulated row the `set_index` succeeds and the table is returned in
accumulation order. -/
def format_results_plain (inputs : List String) (indices : List (List Nat))
    (sorted_scores : List (List ℚ)) (reference_list : List String)
    (number_of_guesses : Nat) : Except PyError (List Row) := do
  let rows ← forEachE (fun p =>
    forEachE (fun j => do
      let idxRow ← getAt indices p.1
      let k ← getAt idxRow j
      let sector ← getAt reference_list k
      let scoreRow ← getAt sorted_scores p.1
      let s ← getAt scoreRow j
      .ok { product := p.2, order := j + 1, code := none, sector := sector,
            similarity := s })
      (List.range number_of_guesses)) inputs.enum
  if rows.flatten = [] then .error .keyError else .ok rows.flatten

/-- Embedding of the code-bearing branch of `Mapping.format_results`
(`src/ML_mapping.py:431-443`): identical loop, but the reference entry is
a `(code, label)` pair read as `entry[0]` and `entry[1]`.  The trailing
`set_index` (`src/ML_mapping.py:442`) raises `KeyError` on a zero-row
accumulation, exactly as in the plain branch. -/
def format_results_coded (inputs : List String) (indices : List (List Nat))
    (sorted_scores : List (List ℚ)) (reference_list : List (String × String))
    (number_of_guesses : Nat) : Except PyError (List Row) := do
  let rows ← forEachE (fun p =>
    forEachE (fun j => do
      let idxRow ← getAt indices p.1
      let k ← getAt idxRow j
      let entry ← getAt reference_list k
      let scoreRow ← getAt sorted_scores p.1
      let s ← getAt scoreRow j
      .ok { product := p.2, order := j + 1, code := some entry.1,
            sector := entry.2, similarity := s })
      (List.range number_of_guesses)) inputs.enum
  if rows.flatten = [] then .error .keyError else .ok rows.flatten

/-- The classification identifiers accepted by the constructor's dispatch
(`src/ML_mapping.py:83-128`), flattened in source order.  `IOCC` and
`openIO-Canada` share one branch (and one data file). -/
def constructor_handled : List String :=
  ["IOCC", "openIO-Canada", "NACE Rev.1.1", "NACE Rev.2", "CPA 2008",
   "CPA 2.1", "exiobase", "USEEIO 2.0", "GTAP 10", "NAPCS 2017",
   "NAPCS 2022", "NAICS 2017", "NAICS 2022", "ISIC Rev.4", "CPC 2.1",
   "COICOP 2018", "ecoinvent 3.8 technosphere", "ecoinvent 3.9 technosphere",
   "ecoinvent 3.8 elementary flows", "ecoinvent 3.9 elementary flows",
   "IMPACT World+ 2.0", "USEtox 2", "EF 3.0", "EF 3.1"]

/-- The identifiers handled by the reference-list selection chain at the
top of `Mapping.format_results` (`src/ML_mapping.py:362-407`), flattened
in source order. -/
def format_reference_handled : List String :=
  ["IOCC", "openIO-Canada", "NACE Rev.1.1", "NACE Rev.2", "CPA 2008",
   "CPA 2.1", "exiobase", "USEEIO 2.0", "GTAP 10", "NAPCS 2017",
   "NAPCS 2022", "NAICS 2017", "NAICS 2022", "ISIC Rev.4", "CPC 2.1",
   "COICOP 2018", "ecoinvent 3.8 technosphere", "ecoinvent 3.9 technosphere",
   "ecoinvent 3.8 elementary flows", "ecoinvent 3.9 elementary flows",
   "IMPACT World+ 2.0", "USEtox 2", "EF 3.0", "EF 3.1"]

/-- The membership list guarding the plain-label output branch of
`Mapping.format_results` (`src/ML_mapping.py:409-412`). -/
def plain_label_classifications : List String :=
  ["IOCC", "openIO-Canada", "exiobase", "USEEIO 2.0", "GTAP 10",
   "ecoinvent 3.8 elementary flows", "ecoinvent 3.9 elementary flows",
   "ecoinvent 3.8 technosphere", "ecoinvent 3.9 technosphere",
   "IMPACT World+ 2.0", "USEtox 2", "EF 3.0", "EF 3.1"]

/-- The membership list guarding the code-bearing output branch of
`Mapping.format_results` (`src/ML_mapping.py:427-429`). -/
def code_bearing_classifications : List String :=
  ["NACE Rev.1.1", "NACE Rev.2", "CPA 2008", "CPA 2.1", "NAPCS 2017",
   "NAPCS 2022", "NAICS 2017", "NAICS 2022", "ISIC Rev.4", "CPC 2.1",
   "COICOP 2018"]

/-- Which of the two output shapes `format_results` uses. -/
inductive RowShape
  | plain
  | codeBearing
  deriving DecidableEq

/-- The branch structure of `Mapping.format_results`
(`src/ML_mapping.py:409-429`): first membership test selects the
plain-label shape, the second the code-bearing shape, and an identifier in
neither list falls through both `if`s — the Python method then implicitly
returns `None` (modelled as `none`). -/
def format_shape (c : String) : Option RowShape :=
  if c ∈ plain_label_classifications then some RowShape.plain
  else if c ∈ code_bearing_classifications then some RowShape.codeBearing
  else none

/-- A parsed reference data file: either a list of bare labels or a list
of `(code, label)` pairs. -/
inductive Catalog
  | plainList (entries : List String)
  | codedList (entries : List (String × String))
  deriving DecidableEq

/-- The strings each `match_to_*` method passes to `model.encode`: the
whole entries for a plain list, the second components (`[i[1] for i in
...]`) for a code-bearing list (`src/ML_mapping.py:139-345`). -/
def catLabels : Catalog → List String
  | .plainList es => es
  | .codedList es => es.map Prod.snd

/-- The attributes of the Python `Mapping` object (`src/ML_mapping.py:48-81`).
All the derived attributes start out `None`.  The 24 per-classification
attributes (`iocc_sectors`, `nace_1_1_sectors`, ..., `ef_3_1_flows`) are
represented uniformly as the association list `sector_lists` keyed by
classification identifier: empty until the dispatched `match_to_*` method
stores its parsed data file. -/
structure Mapping where
  reference_classification : String
  number_of_guesses : Nat
  mapping : Option (List Row)
  sorted_scores : Option (List (List ℚ))
  indices : Option (List (List Nat))
  inputs : Option (List String)
  input_embeddings : Option (List Vec)
  reference_embeddings : Option (List Vec)
  sector_lists : List (String × Catalog)
  deriving DecidableEq

/-- Embedding of `Mapping.__init__` (`src/ML_mapping.py:15-128`).  The 24
`match_to_*` methods are identical up to data file and attribute name, so
they are modelled uniformly: `load` stands for reading and parsing the
classification's JSON file, `encode` for the external embedding model;
the dispatched branch stores the parsed list and sets
`reference_embeddings` to the encoded labels.  The `if/elif` chain has no
`else`: an identifier matching no branch falls through, and construction
still succeeds with every derived attribute left `None`. -/
def Mapping.init (load : String → Catalog) (encode : List String → List Vec)
    (reference_classification : String) (number_of_guesses : Nat) :
    Except PyError Mapping :=
  let base : Mapping :=
    { reference_classification := reference_classification
      number_of_guesses := number_of_guesses
      mapping := none, sorted_scores := none, indices := none, inputs := none
      input_embeddings := none, reference_embeddings := none, sector_lists := [] }
  if reference_classification ∈ constructor_handled then
    let cat := load reference_classification
    .ok { base with
          sector_lists := [(reference_classification, cat)]
          reference_embeddings := some (encode (catLabels cat)) }
  else .ok base

/-- The spec's name (§4.1) for the ranking operation: the same function as
`calculate_scores` on the two embedding matrices.  (Also lets the method
`Mapping.calculate_scores` below call it: a plain occurrence of
`calculate_scores` inside that method would resolve to the method itself.) -/
def rank : (Vec → Vec → ℚ) → List Vec → List Vec →
    Except PyError (List (List ℚ) × List (List Nat)) :=
  calculate_scores

/-- Embedding of the method `Mapping.calculate_scores`
(`src/ML_mapping.py:347-354`) acting on the object state: reads
`self.input_embeddings` and `self.reference_embeddings`, writes
`self.sorted_scores` and `self.indices`.  A `None` operand reaching
`torch.tensor` raises a `RuntimeError`. -/
def Mapping.calculate_scores (sim : Vec → Vec → ℚ) (s : Mapping) :
    Except PyError Mapping :=
  match s.input_embeddings, s.reference_embeddings with
  | some a, some b => do
    let r ← rank sim a b
    .ok { s with sorted_scores := some r.1, indices := some r.2 }
  | _, _ => .error .runtimeError

instance {ε α : Type} [DecidableEq ε] [DecidableEq α] : DecidableEq (Except ε α) :=
  fun x y =>
    match x, y with
    | .ok a, .ok b => if h : a = b then .isTrue (by rw [h]) else .isFalse (by simp [h])
    | .error e, .error e' => if h : e = e' then .isTrue (by rw [h]) else .isFalse (by simp [h])
    | .ok _, .error _ => .isFalse (by simp)
    | .error _, .ok _ => .isFalse (by simp)

theorem ok_bind {ε α β : Type} (a : α) (f : α → Except ε β) :
    (Except.ok a >>= f) = f a := rfl

theorem error_bind {ε α β : Type} (e : ε) (f : α → Except ε β) :
    ((Except.error e : Except ε α) >>= f) = Except.error e := rfl

/-- Chasing an `Except`-valued bind that succeeded. -/
theorem bind_eq_ok {ε α β : Type} {x : Except ε α} {f : α → Except ε β} {b : β}
    (h : (x >>= f) = .ok b) : ∃ a, x = .ok a ∧ f a = .ok b := by
  cases x with
  | ok a => exact ⟨a, rfl, h⟩
  | error e => simp [error_bind] at h

theorem getAt_ok {α : Type} {xs : List α} {i : Nat} {x : α} (h : xs[i]? = some x) :
    getAt xs i = .ok x := by
  simp [getAt, h]

theorem getAt_err {α : Type} {xs : List α} {i : Nat} (h : xs.length ≤ i) :
    getAt xs i = .error .indexError := by
  simp [getAt, List.getElem?_eq_none h]

/-- A loop all of whose iterations succeed returns the mapped list. -/
theorem forEachE_ok {α β : Type} (f : α → Except PyError β) (g : α → β) :
    ∀ (l : List α), (∀ a ∈ l, f a = .ok (g a)) → forEachE f l = .ok (l.map g)
  | [], _ => rfl
  | a :: l, h => by
    have ha := h a (List.mem_cons_self a l)
    have hl := forEachE_ok f g l (fun x hx => h x (List.mem_cons_of_mem a hx))
    simp [forEachE, ha, hl, ok_bind]

/-- A loop aborts at its first failing iteration. -/
theorem forEachE_err {α β : Type} (f : α → Except PyError β) (g : α → β) (e : PyError) :
    ∀ (l₁ : List α) (a : α) (l₂ : List α), (∀ x ∈ l₁, f x = .ok (g x)) →
      f a = .error e → forEachE f (l₁ ++ a :: l₂) = .error e
  | [], a, l₂, _, ha => by simp [forEachE, ha, error_bind]
  | x :: l₁, a, l₂, h, ha => by
    have hx := h x (List.mem_cons_self x l₁)
    have ih := forEachE_err f g e l₁ a l₂ (fun y hy => h y (List.mem_cons_of_mem x hy)) ha
    simp [forEachE, hx, ih, ok_bind, error_bind]

/-- `range N` splits at any `M < N`. -/
theorem range_decomp : ∀ (N M : Nat), M < N →
    ∃ l₂, List.range N = List.range M ++ M :: l₂ := by
  intro N
  induction N with
  | zero => intro M h; omega
  | succ n ih =>
    intro M h
    rcases Nat.lt_or_ge M n with h' | h'
    · obtain ⟨l₂, hl⟩ := ih M h'
      exact ⟨l₂ ++ [n], by rw [List.range_succ, hl]; simp⟩
    · have : M = n := by omega
      subst this
      exact ⟨[], by rw [List.range_succ]⟩

/-- Flattening a list of `N`-length lists has length `count * N`. -/
theorem flatten_length_const {β : Type} (N : Nat) :
    ∀ (ll : List (List β)), (∀ x ∈ ll, x.length = N) →
      ll.flatten.length = ll.length * N
  | [], _ => by simp
  | x :: ll, h => by
    have hx := h x (List.mem_cons_self x ll)
    have ih := flatten_length_const N ll (fun y hy => h y (List.mem_cons_of_mem x hy))
    simp only [List.flatten_cons, List.length_append, List.length_cons, ih, hx]
    ring

/-- Indexing into the flattening of a list of `N`-length lists. -/
theorem flatten_getElem?_const {β : Type} (N : Nat) :
    ∀ (ll : List (List β)) (i j : Nat), (∀ x ∈ ll, x.length = N) →
      i < ll.length → j < N →
      ll.flatten[i * N + j]? = (ll.getD i [])[j]?
  | [], i, j, _, hi, _ => by simp at hi
  | x :: ll, 0, j, h, _, hj => by
    have hx := h x (List.mem_cons_self x ll)
    simp only [List.flatten_cons, Nat.zero_mul, Nat.zero_add, List.getD_cons_zero]
    exact List.getElem?_append_left (by omega)
  | x :: ll, i + 1, j, h, hi, hj => by
    have hx := h x (List.mem_cons_self x ll)
    have ih := flatten_getElem?_const N ll i j
      (fun y hy => h y (List.mem_cons_of_mem x hy)) (by simpa using hi) hj
    simp only [List.flatten_cons, List.getD_cons_succ]
    rw [show (i + 1) * N + j = x.length + (i * N + j) by rw [hx]; ring,
        List.getElem?_append_right (by omega)]
    simpa using ih

theorem sortRow_perm (row : List ℚ) : (sortRow row).Perm row.enum :=
  List.perm_insertionSort scoreGE row.enum

theorem sortRow_sorted (row : List ℚ) : List.Sorted scoreGE (sortRow row) :=
  List.sorted_insertionSort scoreGE row.enum

theorem sortRow_length (row : List ℚ) : (sortRow row).length = row.length := by
  rw [(sortRow_perm row).length_eq, List.enum_length]

/-- Every pair produced by the sort is an (index, value) pair of the row. -/
theorem mem_sortRow {row : List ℚ} {p : Nat × ℚ} (h : p ∈ sortRow row) :
    row[p.1]? = some p.2 :=
  List.mem_enum_iff_getElem?.mp ((sortRow_perm row).mem_iff.mp h)

/-- On non-empty rectangular inputs `pytorch_cos_sim` succeeds and returns
the full similarity matrix. -/
theorem cos_sim_ok (sim : Vec → Vec → ℚ) {a b : List Vec} {d : Nat}
    (ha : a ≠ []) (hb : b ≠ []) (hda : ∀ u ∈ a, u.length = d)
    (hdb : ∀ v ∈ b, v.length = d) :
    pytorch_cos_sim sim a b = .ok (a.map fun u => b.map fun v => sim u v) := by
  cases a with
  | nil => exact absurd rfl ha
  | cons x xs =>
    cases b with
    | nil => exact absurd rfl hb
    | cons y ys =>
      have hx : x.length = d := hda x (by simp)
      have hy : y.length = d := hdb y (by simp)
      have hxs : ∀ v ∈ xs, v.length = d := fun v hv => hda v (by simp [hv])
      have hys : ∀ v ∈ ys, v.length = d := fun v hv => hdb v (by simp [hv])
      simp only [pytorch_cos_sim, embShape, hx, hy]
      rw [dif_pos hxs, dif_pos hys]
      simp [ok_bind]

/-- Successful `calculate_scores` runs decompose into the similarity
matrix and the per-row sorts. -/
theorem calculate_scores_ok {sim : Vec → Vec → ℚ} {a b : List Vec}
    {ss : List (List ℚ)} {idx : List (List Nat)}
    (h : calculate_scores sim a b = .ok (ss, idx)) :
    ∃ scores, pytorch_cos_sim sim a b = .ok scores ∧
      ss = (scores.map sortRow).map (fun r => r.map Prod.snd) ∧
      idx = (scores.map sortRow).map (fun r => r.map Prod.fst) := by
  unfold calculate_scores at h
  obtain ⟨scores, hs, h2⟩ := bind_eq_ok h
  simp only [Except.ok.injEq, Prod.mk.injEq] at h2
  exact ⟨scores, hs, h2.1.symm, h2.2.symm⟩

/-- A concrete similarity kernel used to instantiate witness theorems (it
reads off the head of the reference vector; any kernel works, the claims
hold for all of them, and this one keeps witness evaluation free of
rational arithmetic). -/
def simStub : Vec → Vec → ℚ := fun _ v => v.headD 0

/-- C1: for every non-empty sequence of input vectors and every non-empty
sequence of reference vectors of matching dimensionality, the ranking
operation succeeds and returns, for each input, a permutation of all
reference indices — every reference index appears exactly once. -/
theorem rank_indices_permutation (sim : Vec → Vec → ℚ) (a b : List Vec) (d : Nat)
    (ha : a ≠ []) (hb : b ≠ []) (hda : ∀ u ∈ a, u.length = d)
    (hdb : ∀ v ∈ b, v.length = d) :
    ∃ ss idx, calculate_scores sim a b = .ok (ss, idx) ∧ idx.length = a.length ∧
      ∀ r ∈ idx, r.Perm (List.range b.length) := by
  have hcs := cos_sim_ok sim ha hb hda hdb
  refine ⟨((a.map fun u => b.map fun v => sim u v).map sortRow).map (fun r => r.map Prod.snd),
          ((a.map fun u => b.map fun v => sim u v).map sortRow).map (fun r => r.map Prod.fst),
          by simp [calculate_scores, hcs, ok_bind], by simp, ?_⟩
  intro r hr
  simp only [List.map_map, List.mem_map, Function.comp] at hr
  obtain ⟨u, hu, rfl⟩ := hr
  have h1 : ((sortRow (b.map fun v => sim u v)).map Prod.fst).Perm
      ((b.map fun v => sim u v).enum.map Prod.fst) :=
    (sortRow_perm _).map Prod.fst
  rwa [List.enum_map_fst, List.length_map] at h1

/-- Witness for C1 at a concrete instance. -/
theorem rank_indices_permutation_witness :
    ∃ ss idx, calculate_scores simStub [[1]] [[2], [3]] = .ok (ss, idx) ∧
      idx.length = 1 ∧ ∀ r ∈ idx, r.Perm (List.range 2) :=
  rank_indices_permutation simStub [[1]] [[2], [3]] 1
    (by decide) (by decide) (by decide) (by decide)

/-- C2: in every row of the ranking result the similarity scores are
non-increasing from the first rank to the last. -/
theorem rank_scores_nonincreasing (sim : Vec → Vec → ℚ) (a b : List Vec)
    (ss : List (List ℚ)) (idx : List (List Nat))
    (h : calculate_scores sim a b = .ok (ss, idx)) :
    ∀ r ∈ ss, List.Sorted (· ≥ ·) r := by
  obtain ⟨scores, _, hss, _⟩ := calculate_scores_ok h
  subst hss
  intro r hr
  simp only [List.map_map, List.mem_map, Function.comp] at hr
  obtain ⟨srow, _, rfl⟩ := hr
  exact List.Pairwise.map Prod.snd (fun _ _ hpq => hpq) (sortRow_sorted srow)

/-- Witness for C2 at a concrete instance. -/
theorem rank_scores_nonincreasing_witness :
    List.Sorted (· ≥ ·) [(1 : ℚ), 1, 0] :=
  rank_scores_nonincreasing simStub [[1, 0], [0, 1]] [[1, 0], [1, 1], [0, 1]]
    [[1, 1, 0], [1, 1, 0]] [[0, 1, 2], [0, 1, 2]] (by decide)
    [1, 1, 0] (by decide)

theorem getAt_getD {α : Type} (d : α) {xs : List α} {i : Nat} (h : i < xs.length) :
    getAt xs i = .ok (xs.getD i d) := by
  simp [getAt, List.getElem?_eq_getElem h]

/-- C7 counterexample: `calculate_scores` performs no validation of its
own.  A width mismatch surfaces as the external library's generic
`RuntimeError`, not as `DimensionMismatch`; and two empty sequences are
not rejected with `EmptyInput` — the degenerate `(1, 0)` tensors make the
call succeed with a 1×1 zero matrix. -/
theorem rank_validation_counterexample :
    calculate_scores simStub [[1]] [[1, 2]] = .error .runtimeError ∧
    calculate_scores simStub [[1]] [[1, 2]] ≠ .error .dimensionMismatch ∧
    calculate_scores simStub [] [] = .ok ([[0]], [[0]]) ∧
    calculate_scores simStub [] [] ≠ .error .emptyInput :=
  ⟨by decide, by decide, by decide, by decide⟩

/-- C7 as amended: when the tensor widths of the two vector sequences
disagree the ranking operation fails with the library's generic
`RuntimeError` (there is no dedicated `DimensionMismatch`), and empty
sequences are not specially rejected (no `EmptyInput` exists): two empty
sequences succeed with a degenerate 1×1 zero result. -/
theorem rank_library_shape_errors (sim : Vec → Vec → ℚ) (a b : List Vec)
    (sa sb : Nat × Nat) (ha : embShape a = .ok sa) (hb : embShape b = .ok sb)
    (hne : sa.2 ≠ sb.2) :
    calculate_scores sim a b = .error .runtimeError ∧
    calculate_scores sim [] [] = .ok ([[0]], [[0]]) := by
  constructor
  · unfold calculate_scores pytorch_cos_sim
    rw [ha, hb]
    simp [ok_bind, error_bind, if_neg hne]
  · rfl

/-- Witness for C7's amended theorem at a concrete instance. -/
theorem rank_library_shape_errors_witness :
    calculate_scores simStub [[1]] [[1, 2]] = .error .runtimeError ∧
    calculate_scores simStub [] [] = .ok ([[0]], [[0]]) :=
  rank_library_shape_errors simStub [[1]] [[1, 2]] (1, 1) (1, 2)
    (by decide) (by decide) (by decide)

/-- C5 counterexample: constructing a `Mapping` with the unknown
classification identifier `FOO` does not fail with
`UnknownClassification`; the dispatch falls through every branch and
construction succeeds with every derived attribute left `None`. -/
theorem init_unknown_counterexample :
    Mapping.init (fun _ => Catalog.plainList []) (fun _ => []) "FOO" 3 ≠
      .error .unknownClassification ∧
    Mapping.init (fun _ => Catalog.plainList []) (fun _ => []) "FOO" 3 =
      .ok ⟨"FOO", 3, none, none, none, none, none, none, []⟩ := by decide

/-- C5 as amended: the constructor silently ignores unknown
classification identifiers — no reference list is loaded and no embedding
work occurs (the returned state is independent of `load` and `encode` and
has `reference_embeddings = none`), but no `UnknownClassification` error
is raised; the failure surfaces only downstream. -/
theorem init_unknown_falls_through (load : String → Catalog)
    (encode : List String → List Vec) (c : String) (n : Nat)
    (h : c ∉ constructor_handled) :
    Mapping.init load encode c n =
      .ok ⟨c, n, none, none, none, none, none, none, []⟩ := by
  unfold Mapping.init
  rw [if_neg h]

/-- Witness for C5's amended theorem at the concrete identifier `FOO`. -/
theorem init_unknown_falls_through_witness :
    Mapping.init (fun _ => Catalog.codedList []) (fun _ => [[1]]) "FOO" 7 =
      .ok ⟨"FOO", 7, none, none, none, none, none, none, []⟩ :=
  init_unknown_falls_through (fun _ => Catalog.codedList []) (fun _ => [[1]])
    "FOO" 7 (by decide)

theorem forEachE_cons {α β : Type} (f : α → Except PyError β) (a : α) (l : List α) :
    forEachE f (a :: l) =
      (f a >>= fun b => forEachE f l >>= fun bs => .ok (b :: bs)) := rfl

/-- Over-asking aborts the plain-label loop with `IndexError` at
`j = M` on the very first input. -/
theorem format_plain_short_err (indices : List (List Nat)) (ss : List (List ℚ))
    (ref : List String) (N M : Nat) (p : String) (ps : List String)
    (r : List Nat) (sr : List ℚ)
    (hr : indices[0]? = some r) (hsr : ss[0]? = some sr)
    (hrl : r.length = M) (hsl : M ≤ sr.length)
    (hk : ∀ k ∈ r, k < ref.length) (hM : M < N) :
    format_results_plain (p :: ps) indices ss ref N = .error .indexError := by
  have h1 : getAt indices 0 = .ok r := getAt_ok hr
  have h4 : getAt ss 0 = .ok sr := getAt_ok hsr
  obtain ⟨l₂, hl⟩ := range_decomp N M hM
  have hinner : forEachE (fun j => do
      let idxRow ← getAt indices 0
      let k ← getAt idxRow j
      let sector ← getAt ref k
      let scoreRow ← getAt ss 0
      let s ← getAt scoreRow j
      (Except.ok { product := p, order := j + 1, code := none, sector := sector,
                   similarity := s } : Except PyError Row)) (List.range N) =
      .error .indexError := by
    rw [hl]
    refine forEachE_err _
      (fun j => ({ product := p, order := j + 1, code := none,
                   sector := ref.getD (r.getD j 0) "",
                   similarity := sr.getD j 0 } : Row))
      .indexError (List.range M) M l₂ ?_ ?_
    · intro j hj
      have hjM : j < M := List.mem_range.mp hj
      have hjr : j < r.length := by omega
      have hgd : r.getD j 0 = r[j] := by
        simp [List.getElem?_eq_getElem hjr]
      have hkj : r.getD j 0 < ref.length := by
        rw [hgd]; exact hk _ (List.getElem_mem hjr)
      rw [h1, ok_bind, getAt_getD 0 hjr, ok_bind, getAt_getD "" hkj, ok_bind,
          h4, ok_bind, getAt_getD 0 (show j < sr.length by omega), ok_bind]
    · rw [h1, ok_bind, getAt_err (show r.length ≤ M by omega), error_bind]
  simp only [format_results_plain, List.enum_cons, forEachE_cons]
  simp only [hinner, error_bind]

/-- Over-asking aborts the code-bearing loop with `IndexError` at
`j = M` on the very first input. -/
theorem format_coded_short_err (indices : List (List Nat)) (ss : List (List ℚ))
    (refc : List (String × String)) (N M : Nat) (p : String) (ps : List String)
    (r : List Nat) (sr : List ℚ)
    (hr : indices[0]? = some r) (hsr : ss[0]? = some sr)
    (hrl : r.length = M) (hsl : M ≤ sr.length)
    (hk : ∀ k ∈ r, k < refc.length) (hM : M < N) :
    format_results_coded (p :: ps) indices ss refc N = .error .indexError := by
  have h1 : getAt indices 0 = .ok r := getAt_ok hr
  have h4 : getAt ss 0 = .ok sr := getAt_ok hsr
  obtain ⟨l₂, hl⟩ := range_decomp N M hM
  have hinner : forEachE (fun j => do
      let idxRow ← getAt indices 0
      let k ← getAt idxRow j
      let entry ← getAt refc k
      let scoreRow ← getAt ss 0
      let s ← getAt scoreRow j
      (Except.ok { product := p, order := j + 1, code := some entry.1,
                   sector := entry.2, similarity := s } : Except PyError Row))
      (List.range N) = .error .indexError := by
    rw [hl]
    refine forEachE_err _
      (fun j => ({ product := p, order := j + 1,
                   code := some (refc.getD (r.getD j 0) ("", "")).1,
                   sector := (refc.getD (r.getD j 0) ("", "")).2,
                   similarity := sr.getD j 0 } : Row))
      .indexError (List.range M) M l₂ ?_ ?_
    · intro j hj
      have hjM : j < M := List.mem_range.mp hj
      have hjr : j < r.length := by omega
      have hgd : r.getD j 0 = r[j] := by
        simp [List.getElem?_eq_getElem hjr]
      have hkj : r.getD j 0 < refc.length := by
        rw [hgd]; exact hk _ (List.getElem_mem hjr)
      rw [h1, ok_bind, getAt_getD 0 hjr, ok_bind, getAt_getD ("", "") hkj, ok_bind,
          h4, ok_bind, getAt_getD 0 (show j < sr.length by omega), ok_bind]
    · rw [h1, ok_bind, getAt_err (show r.length ≤ M by omega), error_bind]
  simp only [format_results_coded, List.enum_cons, forEachE_cons]
  simp only [hinner, error_bind]

/-- C6 counterexample: asking for more guesses than the catalog holds
does not fail with `InsufficientReferenceEntries` — both formatter
branches abort with a plain `IndexError`. -/
theorem format_over_asking_counterexample :
    format_results_plain ["x"] [[0]] [[1]] ["a"] 2 = .error .indexError ∧
    format_results_plain ["x"] [[0]] [[1]] ["a"] 2 ≠
      .error .insufficientReferenceEntries ∧
    format_results_coded ["x"] [[0]] [[1]] [("c", "a")] 2 = .error .indexError :=
  ⟨by decide, by decide, by decide⟩

/-- C6 as amended: with a non-empty input list, requesting
`number_of_guesses` greater than the length `M` of the ranked rows (the
catalog size) makes both branches of `format_results` fail with an
index-out-of-range error — no rows are returned, but the error is the
generic `IndexError`, not a dedicated `InsufficientReferenceEntries`. -/
theorem format_over_asking_fails (indices : List (List Nat)) (ss : List (List ℚ))
    (ref : List String) (refc : List (String × String)) (N M : Nat)
    (p : String) (ps : List String) (r : List Nat) (sr : List ℚ)
    (hr : indices[0]? = some r) (hsr : ss[0]? = some sr)
    (hrl : r.length = M) (hsl : M ≤ sr.length)
    (hk : ∀ k ∈ r, k < ref.length) (hkc : ∀ k ∈ r, k < refc.length)
    (hM : M < N) :
    format_results_plain (p :: ps) indices ss ref N = .error .indexError ∧
    format_results_coded (p :: ps) indices ss refc N = .error .indexError :=
  ⟨format_plain_short_err indices ss ref N M p ps r sr hr hsr hrl hsl hk hM,
   format_coded_short_err indices ss refc N M p ps r sr hr hsr hrl hsl hkc hM⟩

/-- Witness for C6's amended theorem at a concrete instance. -/
theorem format_over_asking_fails_witness :
    format_results_plain ["x"] [[0]] [[1]] ["a"] 2 = .error .indexError ∧
    format_results_coded ["x"] [[0]] [[1]] [("c", "a")] 2 = .error .indexError :=
  format_over_asking_fails [[0]] [[1]] ["a"] [("c", "a")] 2 1 "x" [] [0] [1]
    (by decide) (by decide) (by decide) (by decide) (by decide) (by decide)
    (by decide)

/-- C8: the ranking method is effect-free apart from producing its result:
a successful `calculate_scores` call changes no attribute other than
`sorted_scores` and `indices`, and what it writes there is a function of
`input_embeddings` and `reference_embeddings` alone (any state agreeing on
those two attributes receives the same result). -/
theorem calculate_scores_pure_frame (sim : Vec → Vec → ℚ) (s s' : Mapping)
    (h : Mapping.calculate_scores sim s = .ok s') :
    (s'.reference_classification = s.reference_classification ∧
     s'.number_of_guesses = s.number_of_guesses ∧
     s'.mapping = s.mapping ∧
     s'.inputs = s.inputs ∧
     s'.input_embeddings = s.input_embeddings ∧
     s'.reference_embeddings = s.reference_embeddings ∧
     s'.sector_lists = s.sector_lists) ∧
    (∀ t t' : Mapping, t.input_embeddings = s.input_embeddings →
      t.reference_embeddings = s.reference_embeddings →
      Mapping.calculate_scores sim t = .ok t' →
      t'.sorted_scores = s'.sorted_scores ∧ t'.indices = s'.indices) := by
  unfold Mapping.calculate_scores at h
  cases hA : s.input_embeddings with
  | none => rw [hA] at h; cases s.reference_embeddings <;> simp at h
  | some a =>
    cases hB : s.reference_embeddings with
    | none => rw [hA, hB] at h; simp at h
    | some b =>
      rw [hA, hB] at h
      obtain ⟨rv, hrv, heq⟩ := bind_eq_ok h
      simp only [Except.ok.injEq] at heq
      subst heq
      refine ⟨⟨rfl, rfl, rfl, rfl, rfl, rfl, rfl⟩, ?_⟩
      intro t t' hta htb ht
      unfold Mapping.calculate_scores at ht
      rw [hta, htb] at ht
      obtain ⟨rv', hrv', heq'⟩ := bind_eq_ok ht
      rw [hrv] at hrv'
      simp only [Except.ok.injEq] at hrv'
      subst hrv'
      simp only [Except.ok.injEq] at heq'
      subst heq'
      exact ⟨rfl, rfl⟩

/-- A concrete pre-state for the C8 witness. -/
def sExample : Mapping :=
  ⟨"exiobase", 1, none, none, none, none, some [[1]], some [[1]], []⟩

/-- The post-state the ranking method produces from `sExample`. -/
def sExample' : Mapping :=
  ⟨"exiobase", 1, none, some [[1]], some [[0]], none, some [[1]], some [[1]], []⟩

/-- Witness for C8 at a concrete state. -/
theorem calculate_scores_pure_frame_witness :
    (sExample'.reference_classification = sExample.reference_classification ∧
     sExample'.number_of_guesses = sExample.number_of_guesses ∧
     sExample'.mapping = sExample.mapping ∧
     sExample'.inputs = sExample.inputs ∧
     sExample'.input_embeddings = sExample.input_embeddings ∧
     sExample'.reference_embeddings = sExample.reference_embeddings ∧
     sExample'.sector_lists = sExample.sector_lists) ∧
    (∀ t t' : Mapping, t.input_embeddings = sExample.input_embeddings →
      t.reference_embeddings = sExample.reference_embeddings →
      Mapping.calculate_scores simStub t = .ok t' →
      t'.sorted_scores = sExample'.sorted_scores ∧
      t'.indices = sExample'.indices) :=
  calculate_scores_pure_frame simStub sExample sExample' (by decide)

/-- C10: every classification identifier accepted by the constructor's
dispatch is also handled by the formatter's reference-list selection
chain, and lands in exactly one of the two output-shape branches; 13 of
the 24 accepted identifiers produce the plain-label shape and 11 the
code-bearing shape, so the fall-through branch (which returns no table)
is unreachable for constructor-accepted identifiers. -/
theorem dispatch_formatter_consistent :
    (∀ c ∈ constructor_handled,
      c ∈ format_reference_handled ∧
      ((c ∈ plain_label_classifications ∧ c ∉ code_bearing_classifications ∧
        format_shape c = some RowShape.plain) ∨
       (c ∉ plain_label_classifications ∧ c ∈ code_bearing_classifications ∧
        format_shape c = some RowShape.codeBearing))) ∧
    constructor_handled.countP
      (fun c => decide (format_shape c = some RowShape.plain)) = 13 ∧
    constructor_handled.countP
      (fun c => decide (format_shape c = some RowShape.codeBearing)) = 11 := by
  decide

/-- Witness for C10 at the concrete identifier `IOCC`. -/
theorem dispatch_formatter_consistent_witness :
    "IOCC" ∈ format_reference_handled ∧
    (("IOCC" ∈ plain_label_classifications ∧
      "IOCC" ∉ code_bearing_classifications ∧
      format_shape "IOCC" = some RowShape.plain) ∨
     ("IOCC" ∉ plain_label_classifications ∧
      "IOCC" ∈ code_bearing_classifications ∧
      format_shape "IOCC" = some RowShape.codeBearing)) :=
  dispatch_formatter_consistent.1 "IOCC" (by decide)

theorem getD_of_lt {α : Type} (d : α) {xs : List α} {i : Nat} (h : i < xs.length) :
    xs.getD i d = xs[i] := by
  simp [List.getD_eq_getElem?_getD, List.getElem?_eq_getElem h]

theorem table_length (g : Nat × String → Nat → Row) (inputs : List String) (N : Nat) :
    ((inputs.enum.map (fun p => (List.range N).map (g p))).flatten).length =
      inputs.length * N := by
  rw [flatten_length_const N _ ?_, List.length_map, List.enum_length]
  intro x hx
  obtain ⟨p, _, rfl⟩ := List.mem_map.mp hx
  rw [List.length_map, List.length_range]

theorem table_getElem? (g : Nat × String → Nat → Row) (inputs : List String)
    (N i j : Nat) (hi : i < inputs.length) (hj : j < N) :
    ((inputs.enum.map (fun p => (List.range N).map (g p))).flatten)[i * N + j]? =
      some (g (i, inputs[i]) j) := by
  rw [flatten_getElem?_const N _ i j ?_ ?_ hj]
  · have hll : (inputs.enum.map (fun p => (List.range N).map (g p)))[i]? =
        some ((List.range N).map (g (i, inputs[i]))) := by
      rw [List.getElem?_map, List.getElem?_enum, List.getElem?_eq_getElem hi]
      rfl
    have hgd : (inputs.enum.map (fun p => (List.range N).map (g p))).getD i [] =
        (List.range N).map (g (i, inputs[i])) := by
      rw [List.getD_eq_getElem?_getD, hll]
      rfl
    rw [hgd, List.getElem?_map, List.getElem?_range hj]
    rfl
  · intro x hx
    obtain ⟨p, _, rfl⟩ := List.mem_map.mp hx
    rw [List.length_map, List.length_range]
  · rw [List.length_map, List.enum_length]; exact hi

/-- A non-empty input list and a positive guess count always accumulate
at least one row. -/
theorem table_ne_nil (g : Nat × String → Nat → Row) (inputs : List String)
    (N : Nat) (hne : inputs ≠ []) (hNpos : 0 < N) :
    (inputs.enum.map (fun p => (List.range N).map (g p))).flatten ≠ [] := by
  intro hempty
  have hlen := table_length g inputs N
  rw [hempty] at hlen
  have h1 : inputs.length ≠ 0 := fun h => hne (List.length_eq_zero.mp h)
  rcases Nat.mul_eq_zero.mp hlen.symm with h | h
  · exact h1 h
  · omega

/-- When every lookup is in range, the plain-label formatter succeeds and
returns exactly the nested-loop table, flattened in loop order. -/
theorem format_plain_ok (inputs : List String) (indices : List (List Nat))
    (ss : List (List ℚ)) (ref : List String) (N : Nat)
    (hne : inputs ≠ []) (hNpos : 0 < N)
    (hIdx : inputs.length ≤ indices.length)
    (hSs : inputs.length ≤ ss.length)
    (hRows : ∀ r ∈ indices, N ≤ r.length ∧ ∀ k ∈ r, k < ref.length)
    (hSRows : ∀ r ∈ ss, N ≤ r.length) :
    format_results_plain inputs indices ss ref N =
      .ok ((inputs.enum.map (fun p => (List.range N).map (fun j =>
        ({ product := p.2, order := j + 1, code := none,
           sector := ref.getD ((indices.getD p.1 []).getD j 0) "",
           similarity := (ss.getD p.1 []).getD j 0 } : Row)))).flatten) := by
  have houter : forEachE (fun p =>
      forEachE (fun j => do
        let idxRow ← getAt indices p.1
        let k ← getAt idxRow j
        let sector ← getAt ref k
        let scoreRow ← getAt ss p.1
        let s ← getAt scoreRow j
        (Except.ok { product := p.2, order := j + 1, code := none,
                     sector := sector, similarity := s } : Except PyError Row))
        (List.range N)) inputs.enum =
      .ok (inputs.enum.map (fun p => (List.range N).map (fun j =>
        ({ product := p.2, order := j + 1, code := none,
           sector := ref.getD ((indices.getD p.1 []).getD j 0) "",
           similarity := (ss.getD p.1 []).getD j 0 } : Row)))) := by
    refine forEachE_ok _ _ inputs.enum ?_
    intro p hp
    have hpi : inputs[p.1]? = some p.2 := List.mem_enum_iff_getElem?.mp hp
    have hplt : p.1 < inputs.length := by
      rcases List.getElem?_eq_some_iff.mp hpi with ⟨h, _⟩; exact h
    have hpidx : p.1 < indices.length := by omega
    have hpss : p.1 < ss.length := by omega
    have hidxD : indices.getD p.1 [] = indices[p.1] := getD_of_lt [] hpidx
    have hssD : ss.getD p.1 [] = ss[p.1] := getD_of_lt [] hpss
    obtain ⟨hrN, hrk⟩ := hRows _ (List.getElem_mem hpidx)
    have hsN := hSRows _ (List.getElem_mem hpss)
    refine forEachE_ok _ _ (List.range N) ?_
    intro j hj
    have hjN : j < N := List.mem_range.mp hj
    have hjr : j < (indices.getD p.1 []).length := by rw [hidxD]; omega
    have hjs : j < (ss.getD p.1 []).length := by rw [hssD]; omega
    have hkin : (indices.getD p.1 []).getD j 0 ∈ indices[p.1] := by
      have hmem := List.getElem_mem hjr
      rw [getD_of_lt 0 hjr, ← hidxD]
      exact hmem
    have hkr : (indices.getD p.1 []).getD j 0 < ref.length := hrk _ hkin
    rw [getAt_getD [] hpidx, ok_bind, getAt_getD 0 hjr, ok_bind,
        getAt_getD "" hkr, ok_bind, getAt_getD [] hpss, ok_bind,
        getAt_getD 0 hjs, ok_bind]
  simp only [format_results_plain]
  rw [houter, ok_bind]
  exact if_neg (table_ne_nil (fun p j =>
    ({ product := p.2, order := j + 1, code := none,
       sector := ref.getD ((indices.getD p.1 []).getD j 0) "",
       similarity := (ss.getD p.1 []).getD j 0 } : Row)) inputs N hne hNpos)

/-- When every lookup is in range, the code-bearing formatter succeeds
and returns exactly the nested-loop table, flattened in loop order. -/
theorem format_coded_ok (inputs : List String) (indices : List (List Nat))
    (ss : List (List ℚ)) (refc : List (String × String)) (N : Nat)
    (hne : inputs ≠ []) (hNpos : 0 < N)
    (hIdx : inputs.length ≤ indices.length)
    (hSs : inputs.length ≤ ss.length)
    (hRows : ∀ r ∈ indices, N ≤ r.length ∧ ∀ k ∈ r, k < refc.length)
    (hSRows : ∀ r ∈ ss, N ≤ r.length) :
    format_results_coded inputs indices ss refc N =
      .ok ((inputs.enum.map (fun p => (List.range N).map (fun j =>
        ({ product := p.2, order := j + 1,
           code := some (refc.getD ((indices.getD p.1 []).getD j 0) ("", "")).1,
           sector := (refc.getD ((indices.getD p.1 []).getD j 0) ("", "")).2,
           similarity := (ss.getD p.1 []).getD j 0 } : Row)))).flatten) := by
  have houter : forEachE (fun p =>
      forEachE (fun j => do
        let idxRow ← getAt indices p.1
        let k ← getAt idxRow j
        let entry ← getAt refc k
        let scoreRow ← getAt ss p.1
        let s ← getAt scoreRow j
        (Except.ok { product := p.2, order := j + 1, code := some entry.1,
                     sector := entry.2, similarity := s } : Except PyError Row))
        (List.range N)) inputs.enum =
      .ok (inputs.enum.map (fun p => (List.range N).map (fun j =>
        ({ product := p.2, order := j + 1,
           code := some (refc.getD ((indices.getD p.1 []).getD j 0) ("", "")).1,
           sector := (refc.getD ((indices.getD p.1 []).getD j 0) ("", "")).2,
           similarity := (ss.getD p.1 []).getD j 0 } : Row)))) := by
    refine forEachE_ok _ _ inputs.enum ?_
    intro p hp
    have hpi : inputs[p.1]? = some p.2 := List.mem_enum_iff_getElem?.mp hp
    have hplt : p.1 < inputs.length := by
      rcases List.getElem?_eq_some_iff.mp hpi with ⟨h, _⟩; exact h
    have hpidx : p.1 < indices.length := by omega
    have hpss : p.1 < ss.length := by omega
    have hidxD : indices.getD p.1 [] = indices[p.1] := getD_of_lt [] hpidx
    have hssD : ss.getD p.1 [] = ss[p.1] := getD_of_lt [] hpss
    obtain ⟨hrN, hrk⟩ := hRows _ (List.getElem_mem hpidx)
    have hsN := hSRows _ (List.getElem_mem hpss)
    refine forEachE_ok _ _ (List.range N) ?_
    intro j hj
    have hjN : j < N := List.mem_range.mp hj
    have hjr : j < (indices.getD p.1 []).length := by rw [hidxD]; omega
    have hjs : j < (ss.getD p.1 []).length := by rw [hssD]; omega
    have hkin : (indices.getD p.1 []).getD j 0 ∈ indices[p.1] := by
      have hmem := List.getElem_mem hjr
      rw [getD_of_lt 0 hjr, ← hidxD]
      exact hmem
    have hkr : (indices.getD p.1 []).getD j 0 < refc.length := hrk _ hkin
    rw [getAt_getD [] hpidx, ok_bind, getAt_getD 0 hjr, ok_bind,
        getAt_getD ("", "") hkr, ok_bind, getAt_getD [] hpss, ok_bind,
        getAt_getD 0 hjs, ok_bind]
  simp only [format_results_coded]
  rw [houter, ok_bind]
  exact if_neg (table_ne_nil (fun p j =>
    ({ product := p.2, order := j + 1,
       code := some (refc.getD ((indices.getD p.1 []).getD j 0) ("", "")).1,
       sector := (refc.getD ((indices.getD p.1 []).getD j 0) ("", "")).2,
       similarity := (ss.getD p.1 []).getD j 0 } : Row)) inputs N hne hNpos)


/-- C4 counterexample: at the empty input sequence (with a size-1 catalog
and `top_n = 1 ≤ M`, as the claim permits) the tabulation does not return
a 0-row table — the trailing `set_index` on the empty accumulation raises
`KeyError`; the same happens at `top_n = 0` on a non-empty input. -/
theorem tabulate_empty_counterexample :
    format_results_plain [] [] [] ["a"] 1 = .error .keyError ∧
    format_results_plain [] [] [] ["a"] 1 ≠ .ok [] ∧
    format_results_coded [] [] [] [("c", "a")] 1 = .error .keyError ∧
    format_results_plain ["x"] [[0]] [[1]] ["a"] 0 = .error .keyError :=
  ⟨by decide, by decide, by decide, by decide⟩

/-- C4 as amended: for a catalog of size `M`, pipeline-consistent ranked
matrices (one `M`-length row per input), a non-empty input sequence and
`top_n = N` with `1 ≤ N ≤ M`, both branches of the tabulation succeed and
return exactly `inputs.length * N` rows, laid out primarily in the
original input order and secondarily by ascending rank, with 1-based rank
`j + 1` for the `j`-th guess.  (With an empty input sequence or
`top_n = 0` the source instead raises `KeyError` at the trailing
`set_index`, see `tabulate_empty_counterexample`.) -/
theorem tabulate_rows_ordered (inputs : List String) (indices : List (List Nat))
    (ss : List (List ℚ)) (ref : List String) (refc : List (String × String))
    (N M : Nat) (hne : inputs ≠ []) (hNpos : 0 < N)
    (hIdx : inputs.length ≤ indices.length) (hSs : inputs.length ≤ ss.length)
    (hM : ref.length = M) (hMc : refc.length = M) (hN : N ≤ M)
    (hRows : ∀ r ∈ indices, r.length = M ∧ ∀ k ∈ r, k < M)
    (hSRows : ∀ r ∈ ss, r.length = M) :
    (∃ t, format_results_plain inputs indices ss ref N = .ok t ∧
      t.length = inputs.length * N ∧
      ∀ i j, i < inputs.length → j < N → ∃ row, t[i * N + j]? = some row ∧
        row.product = inputs.getD i "" ∧ row.order = j + 1) ∧
    (∃ t, format_results_coded inputs indices ss refc N = .ok t ∧
      t.length = inputs.length * N ∧
      ∀ i j, i < inputs.length → j < N → ∃ row, t[i * N + j]? = some row ∧
        row.product = inputs.getD i "" ∧ row.order = j + 1) := by
  have hRows' : ∀ r ∈ indices, N ≤ r.length ∧ ∀ k ∈ r, k < ref.length := by
    intro r hr
    obtain ⟨h1, h2⟩ := hRows r hr
    exact ⟨by omega, fun k hk => by rw [hM]; exact h2 k hk⟩
  have hRowsC : ∀ r ∈ indices, N ≤ r.length ∧ ∀ k ∈ r, k < refc.length := by
    intro r hr
    obtain ⟨h1, h2⟩ := hRows r hr
    exact ⟨by omega, fun k hk => by rw [hMc]; exact h2 k hk⟩
  have hSRows' : ∀ r ∈ ss, N ≤ r.length := fun r hr => by
    rw [hSRows r hr]; exact hN
  constructor
  · refine ⟨_, format_plain_ok inputs indices ss ref N hne hNpos hIdx hSs hRows' hSRows', ?_, ?_⟩
    · exact table_length (fun p j =>
        ({ product := p.2, order := j + 1, code := none,
           sector := ref.getD ((indices.getD p.1 []).getD j 0) "",
           similarity := (ss.getD p.1 []).getD j 0 } : Row)) inputs N
    · intro i j hi hj
      refine ⟨_, table_getElem? (fun p j =>
        ({ product := p.2, order := j + 1, code := none,
           sector := ref.getD ((indices.getD p.1 []).getD j 0) "",
           similarity := (ss.getD p.1 []).getD j 0 } : Row)) inputs N i j hi hj,
        (getD_of_lt "" hi).symm, rfl⟩
  · refine ⟨_, format_coded_ok inputs indices ss refc N hne hNpos hIdx hSs hRowsC hSRows', ?_, ?_⟩
    · exact table_length (fun p j =>
        ({ product := p.2, order := j + 1,
           code := some (refc.getD ((indices.getD p.1 []).getD j 0) ("", "")).1,
           sector := (refc.getD ((indices.getD p.1 []).getD j 0) ("", "")).2,
           similarity := (ss.getD p.1 []).getD j 0 } : Row)) inputs N
    · intro i j hi hj
      refine ⟨_, table_getElem? (fun p j =>
        ({ product := p.2, order := j + 1,
           code := some (refc.getD ((indices.getD p.1 []).getD j 0) ("", "")).1,
           sector := (refc.getD ((indices.getD p.1 []).getD j 0) ("", "")).2,
           similarity := (ss.getD p.1 []).getD j 0 } : Row)) inputs N i j hi hj,
        (getD_of_lt "" hi).symm, rfl⟩

/-- Witness for C4 at a concrete instance. -/
theorem tabulate_rows_ordered_witness :
    (∃ t, format_results_plain ["x", "y"] [[1, 0], [0, 1]] [[2, 1], [1, 0]]
        ["a", "b"] 2 = .ok t ∧
      t.length = 2 * 2 ∧
      ∀ i j, i < 2 → j < 2 → ∃ row, t[i * 2 + j]? = some row ∧
        row.product = ["x", "y"].getD i "" ∧ row.order = j + 1) ∧
    (∃ t, format_results_coded ["x", "y"] [[1, 0], [0, 1]] [[2, 1], [1, 0]]
        [("c", "a"), ("d", "b")] 2 = .ok t ∧
      t.length = 2 * 2 ∧
      ∀ i j, i < 2 → j < 2 → ∃ row, t[i * 2 + j]? = some row ∧
        row.product = ["x", "y"].getD i "" ∧ row.order = j + 1) :=
  tabulate_rows_ordered ["x", "y"] [[1, 0], [0, 1]] [[2, 1], [1, 0]]
    ["a", "b"] [("c", "a"), ("d", "b")] 2 2
    (by decide) (by decide) (by decide) (by decide) (by decide) (by decide)
    (by decide) (by decide) (by decide)

/-- On non-empty rectangular inputs, the two components of a successful
ranking are the per-input sorts of the similarity rows. -/
theorem calc_rows {sim : Vec → Vec → ℚ} {a b : List Vec} {d : Nat}
    {ss : List (List ℚ)} {idx : List (List Nat)}
    (ha : a ≠ []) (hb : b ≠ []) (hda : ∀ u ∈ a, u.length = d)
    (hdb : ∀ v ∈ b, v.length = d)
    (hcalc : calculate_scores sim a b = .ok (ss, idx)) :
    ss = a.map (fun u => (sortRow (b.map fun v => sim u v)).map Prod.snd) ∧
    idx = a.map (fun u => (sortRow (b.map fun v => sim u v)).map Prod.fst) := by
  obtain ⟨scores, hcos, hss, hidx⟩ := calculate_scores_ok hcalc
  rw [cos_sim_ok sim ha hb hda hdb] at hcos
  have hsc : scores = a.map fun u => b.map fun v => sim u v :=
    (Except.ok.inj hcos).symm
  subst hsc
  subst hss
  subst hidx
  constructor <;> simp [List.map_map, Function.comp]

/-- The `j`-th sorted index and the `j`-th sorted score of one similarity
row belong to one and the same reference entry. -/
theorem sorted_pair_spec (sim : Vec → Vec → ℚ) (a b : List Vec) (i j : Nat)
    (hi : i < a.length) (hj : j < b.length) :
    ∃ u v,
      a[i]? = some u ∧
      b[((a.map (fun u => (sortRow (b.map fun v => sim u v)).map Prod.fst)).getD
          i []).getD j 0]? = some v ∧
      ((a.map (fun u => (sortRow (b.map fun v => sim u v)).map Prod.snd)).getD
          i []).getD j 0 = sim u v := by
  have hidxD : (a.map (fun u => (sortRow (b.map fun v => sim u v)).map
      Prod.fst)).getD i [] = (sortRow (b.map fun v => sim a[i] v)).map Prod.fst := by
    rw [getD_of_lt [] (by rw [List.length_map]; exact hi), List.getElem_map]
  have hssD : (a.map (fun u => (sortRow (b.map fun v => sim u v)).map
      Prod.snd)).getD i [] = (sortRow (b.map fun v => sim a[i] v)).map Prod.snd := by
    rw [getD_of_lt [] (by rw [List.length_map]; exact hi), List.getElem_map]
  have hL : (sortRow (b.map fun v => sim a[i] v)).length = b.length := by
    rw [sortRow_length, List.length_map]
  have hjL : j < (sortRow (b.map fun v => sim a[i] v)).length := by omega
  have hfst : ((sortRow (b.map fun v => sim a[i] v)).map Prod.fst).getD j 0 =
      ((sortRow (b.map fun v => sim a[i] v))[j]).1 := by
    rw [getD_of_lt 0 (by rw [List.length_map]; exact hjL), List.getElem_map]
  have hsnd : ((sortRow (b.map fun v => sim a[i] v)).map Prod.snd).getD j 0 =
      ((sortRow (b.map fun v => sim a[i] v))[j]).2 := by
    rw [getD_of_lt 0 (by rw [List.length_map]; exact hjL), List.getElem_map]
  have hrow := mem_sortRow (List.getElem_mem hjL)
  rw [List.getElem?_map, Option.map_eq_some'] at hrow
  obtain ⟨v, hv, hsv⟩ := hrow
  exact ⟨a[i], v, List.getElem?_eq_getElem hi, by rw [hidxD, hfst]; exact hv,
    by rw [hssD, hsnd]; exact hsv.symm⟩

/-- C9: in every emitted row, the label (and code, in the code-bearing
branch) and the similarity value refer to one and the same reference
entry: the row for input `i` at rank `j + 1` carries catalog entry
`k = indices[i][j]` together with `sorted_scores[i][j]`, and that score
is exactly the similarity of input `i` to reference entry `k`.  (Rows
are only emitted for a non-empty input sequence and positive `top_n`;
with a zero-row accumulation the method raises `KeyError` at the trailing
`set_index` and emits nothing, so the per-row claim is vacuous there.) -/
theorem tabulate_rows_consistent (sim : Vec → Vec → ℚ) (a b : List Vec) (d : Nat)
    (inputs : List String) (ref : List String) (refc : List (String × String))
    (N : Nat) (ss : List (List ℚ)) (idx : List (List Nat))
    (hinputs : inputs ≠ []) (hNpos : 0 < N)
    (ha : a ≠ []) (hb : b ≠ []) (hda : ∀ u ∈ a, u.length = d)
    (hdb : ∀ v ∈ b, v.length = d)
    (hcalc : calculate_scores sim a b = .ok (ss, idx))
    (hlen : inputs.length ≤ a.length)
    (href : ref.length = b.length) (hrefc : refc.length = b.length)
    (hN : N ≤ b.length) :
    (∃ t, format_results_plain inputs idx ss ref N = .ok t ∧
      ∀ i j, i < inputs.length → j < N →
        ∃ row k u v, t[i * N + j]? = some row ∧
          (idx.getD i []).getD j 0 = k ∧ a[i]? = some u ∧ b[k]? = some v ∧
          row.sector = ref.getD k "" ∧ row.similarity = sim u v) ∧
    (∃ t, format_results_coded inputs idx ss refc N = .ok t ∧
      ∀ i j, i < inputs.length → j < N →
        ∃ row k u v, t[i * N + j]? = some row ∧
          (idx.getD i []).getD j 0 = k ∧ a[i]? = some u ∧ b[k]? = some v ∧
          row.code = some (refc.getD k ("", "")).1 ∧
          row.sector = (refc.getD k ("", "")).2 ∧ row.similarity = sim u v) := by
  obtain ⟨hss, hidx⟩ := calc_rows ha hb hda hdb hcalc
  subst hss
  subst hidx
  have hIdx : inputs.length ≤
      (a.map (fun u => (sortRow (b.map fun v => sim u v)).map Prod.fst)).length := by
    rw [List.length_map]; exact hlen
  have hSs : inputs.length ≤
      (a.map (fun u => (sortRow (b.map fun v => sim u v)).map Prod.snd)).length := by
    rw [List.length_map]; exact hlen
  have hkbound : ∀ r ∈ a.map (fun u => (sortRow (b.map fun v => sim u v)).map
      Prod.fst), N ≤ r.length ∧ ∀ k ∈ r, k < b.length := by
    intro r hr
    obtain ⟨u, hu, rfl⟩ := List.mem_map.mp hr
    constructor
    · rw [List.length_map, sortRow_length, List.length_map]; exact hN
    · intro k hk
      obtain ⟨p, hp, rfl⟩ := List.mem_map.mp hk
      have hsome := mem_sortRow hp
      have hlt : p.1 < (b.map fun v => sim u v).length := by
        rcases List.getElem?_eq_some_iff.mp hsome with ⟨h, _⟩; exact h
      rwa [List.length_map] at hlt
  have hRows : ∀ r ∈ a.map (fun u => (sortRow (b.map fun v => sim u v)).map
      Prod.fst), N ≤ r.length ∧ ∀ k ∈ r, k < ref.length := by
    intro r hr
    obtain ⟨h1, h2⟩ := hkbound r hr
    exact ⟨h1, fun k hk => by rw [href]; exact h2 k hk⟩
  have hRowsC : ∀ r ∈ a.map (fun u => (sortRow (b.map fun v => sim u v)).map
      Prod.fst), N ≤ r.length ∧ ∀ k ∈ r, k < refc.length := by
    intro r hr
    obtain ⟨h1, h2⟩ := hkbound r hr
    exact ⟨h1, fun k hk => by rw [hrefc]; exact h2 k hk⟩
  have hSRows : ∀ r ∈ a.map (fun u => (sortRow (b.map fun v => sim u v)).map
      Prod.snd), N ≤ r.length := by
    intro r hr
    obtain ⟨u, hu, rfl⟩ := List.mem_map.mp hr
    rw [List.length_map, sortRow_length, List.length_map]; exact hN
  constructor
  · refine ⟨_, format_plain_ok inputs _ _ ref N hinputs hNpos hIdx hSs hRows hSRows, ?_⟩
    intro i j hi hj
    obtain ⟨u, v, hu, hv, hsim⟩ := sorted_pair_spec sim a b i j (by omega) (by omega)
    exact ⟨_, _, u, v,
      table_getElem? (fun p j =>
        ({ product := p.2, order := j + 1, code := none,
           sector := ref.getD (((a.map (fun u => (sortRow (b.map fun v =>
             sim u v)).map Prod.fst)).getD p.1 []).getD j 0) "",
           similarity := ((a.map (fun u => (sortRow (b.map fun v =>
             sim u v)).map Prod.snd)).getD p.1 []).getD j 0 } : Row))
        inputs N i j hi hj,
      rfl, hu, hv, rfl, hsim⟩
  · refine ⟨_, format_coded_ok inputs _ _ refc N hinputs hNpos hIdx hSs hRowsC hSRows, ?_⟩
    intro i j hi hj
    obtain ⟨u, v, hu, hv, hsim⟩ := sorted_pair_spec sim a b i j (by omega) (by omega)
    exact ⟨_, _, u, v,
      table_getElem? (fun p j =>
        ({ product := p.2, order := j + 1,
           code := some (refc.getD (((a.map (fun u => (sortRow (b.map fun v =>
             sim u v)).map Prod.fst)).getD p.1 []).getD j 0) ("", "")).1,
           sector := (refc.getD (((a.map (fun u => (sortRow (b.map fun v =>
             sim u v)).map Prod.fst)).getD p.1 []).getD j 0) ("", "")).2,
           similarity := ((a.map (fun u => (sortRow (b.map fun v =>
             sim u v)).map Prod.snd)).getD p.1 []).getD j 0 } : Row))
        inputs N i j hi hj,
      rfl, hu, hv, rfl, rfl, hsim⟩

/-- Witness for C9 at a concrete instance. -/
theorem tabulate_rows_consistent_witness :
    (∃ t, format_results_plain ["x"] [[1, 0]] [[3, 2]] ["a", "b"] 2 = .ok t ∧
      ∀ i j, i < 1 → j < 2 →
        ∃ row k u v, t[i * 2 + j]? = some row ∧
          ([[1, 0]].getD i []).getD j 0 = k ∧ [[(1 : ℚ)]][i]? = some u ∧
          [[(2 : ℚ)], [3]][k]? = some v ∧
          row.sector = ["a", "b"].getD k "" ∧ row.similarity = simStub u v) ∧
    (∃ t, format_results_coded ["x"] [[1, 0]] [[3, 2]]
        [("c", "a"), ("d", "b")] 2 = .ok t ∧
      ∀ i j, i < 1 → j < 2 →
        ∃ row k u v, t[i * 2 + j]? = some row ∧
          ([[1, 0]].getD i []).getD j 0 = k ∧ [[(1 : ℚ)]][i]? = some u ∧
          [[(2 : ℚ)], [3]][k]? = some v ∧
          row.code = some ([("c", "a"), ("d", "b")].getD k ("", "")).1 ∧
          row.sector = ([("c", "a"), ("d", "b")].getD k ("", "")).2 ∧
          row.similarity = simStub u v) :=
  tabulate_rows_consistent simStub [[1]] [[2], [3]] 1 ["x"] ["a", "b"]
    [("c", "a"), ("d", "b")] 2 [[3, 2]] [[1, 0]]
    (by decide) (by decide) (by decide) (by decide) (by decide) (by decide)
    (by decide) (by decide) (by decide) (by decide) (by decide)
